import Mathlib

set_option maxRecDepth 8000

/-!
Shallow embedding of the Code-Vault-AI repository and proofs about its
specification claims.  The embedded code is `src/code_parser.py`,
`src/generate_embeddings.py`, `src/query_code.py` and `src/config.py`.
Strings are modelled as `List Char` (ASCII inputs), Python integers as
`Nat`/`Int`, the regular expressions of the parser by a small backtracking
engine over an abstract syntax that transliterates the pattern strings, and
Python exceptions by `Except`.
-/

namespace CodeVault

/-- The opening-brace character. -/
def openB : Char := '\x7b'

/-- The closing-brace character. -/
def closeB : Char := '\x7d'

/-- ASCII whitespace: the characters Python `str.strip`, `str.isspace` and the
regex class of whitespace recognise on ASCII input. -/
def pyIsSpace (c : Char) : Bool :=
  c = ' ' || c = '\t' || c = '\n' || c = '\r' || c = '\x0b' || c = '\x0c'

/-- Python `str.isspace`: true on a nonempty all-whitespace string. -/
def pyStrIsSpace (l : List Char) : Bool := !l.isEmpty && l.all pyIsSpace

/-- Python `str.strip` restricted to ASCII whitespace. -/
def pyStrip (l : List Char) : List Char :=
  ((l.dropWhile pyIsSpace).reverse.dropWhile pyIsSpace).reverse

/-- Python `str.split` on one separator character; empty pieces are kept and
the split of the empty string is a single empty piece. -/
def splitCh (sep : Char) : List Char → List (List Char)
  | [] => [[]]
  | c :: rest =>
    match splitCh sep rest with
    | [] => [[]]
    | l :: ls => if c = sep then [] :: l :: ls else (c :: l) :: ls

/-- Python `str.split` on one newline character. -/
def splitNl (l : List Char) : List (List Char) := splitCh '\n' l

/-- Python substring containment, `needle in hay`. -/
def containsSub (needle hay : List Char) : Bool :=
  (List.range (hay.length + 1)).any (fun k => needle.isPrefixOf (hay.drop k))

/-- The decimal digit characters used when Python formats an integer. -/
def digitCharP (d : Nat) : Char :=
  match d with
  | 0 => '0' | 1 => '1' | 2 => '2' | 3 => '3' | 4 => '4'
  | 5 => '5' | 6 => '6' | 7 => '7' | 8 => '8' | _ => '9'

/-- Decimal digits of a number, most significant first; empty on zero.  The
fuel argument makes the recursion structural. -/
def decAux : Nat → Nat → List Char
  | 0, _ => []
  | fuel + 1, n => if n = 0 then [] else decAux fuel (n / 10) ++ [digitCharP (n % 10)]

/-- Python decimal rendering of a natural number, as used by the f-string
interpolation that builds `chunk_id` values. -/
def pyIntStrL (n : Nat) : List Char := if n = 0 then ['0'] else decAux (n + 1) n

/-- String form of `pyIntStrL`. -/
def pyIntStr (n : Nat) : String := (pyIntStrL n).asString

/-- Captured groups of one regex match: group number with captured characters.
A group absent from the list did not participate (Python `None`). -/
abbrev Groups := List (Nat × List Char)

/-- Abstract syntax for the fragment of Python regular expressions used by the
patterns of code_parser.py: literal characters, one-character classes, greedy
star over a class, concatenation, ordered alternation and numbered capture
groups. -/
inductive RE where
  | eps
  | chr (c : Char)
  | cls (f : Char → Bool)
  | star (f : Char → Bool)
  | seq (a b : RE)
  | alt (a b : RE)
  | grp (n : Nat) (r : RE)

/-- Greedy matching for a class star: try to consume `i` characters for `i`
from the length of the maximal run downwards, which is exactly Python regex
greediness with backtracking. -/
def starTry (s : List Char) (g : Groups)
    (k : List Char → Groups → Option (List Char × Groups)) :
    Nat → Option (List Char × Groups)
  | 0 => k s g
  | i + 1 => (k (s.drop (i + 1)) g).orElse (fun _ => starTry s g k i)

/-- Backtracking matcher in continuation-passing style; the continuation
receives the remaining suffix and the captured groups.  Alternation is
ordered, exactly as in Python. -/
def reMatch : RE → List Char → Groups →
    (List Char → Groups → Option (List Char × Groups)) → Option (List Char × Groups)
  | .eps, s, g, k => k s g
  | .chr c, s, g, k =>
    match s with
    | [] => none
    | x :: rest => if x = c then k rest g else none
  | .cls f, s, g, k =>
    match s with
    | [] => none
    | x :: rest => if f x then k rest g else none
  | .star f, s, g, k => starTry s g k (s.takeWhile f).length
  | .seq a b, s, g, k => reMatch a s g (fun u h => reMatch b u h k)
  | .alt a b, s, g, k => (reMatch a s g k).orElse (fun _ => reMatch b s g k)
  | .grp n r, s, g, k =>
    reMatch r s g (fun u h => k u ((n, s.take (s.length - u.length)) :: h))

/-- Try the pattern at the current position: on success return the number of
consumed characters and the captured groups. -/
def matchAt (r : RE) (s : List Char) : Option (Nat × Groups) :=
  match reMatch r s [] (fun u h => some (u, h)) with
  | none => none
  | some (u, h) => some (s.length - u.length, h)

/-- One entry of `re.finditer`: match start offset, matched text (group 0) and
captured groups. -/
abbrev MatchData := Nat × List Char × Groups

/-- Python `re.finditer`: scan positions left to right, take the first match
at the leftmost position, continue after the end of the match
(non-overlapping).  Fuel keeps the recursion structural; the initial fuel
covers the whole scan since every step consumes at least one character.  Our
patterns cannot match the empty string; a zero-width match would merely
advance the scan. -/
def finditerAux (r : RE) : Nat → List Char → Nat → List MatchData
  | 0, _, _ => []
  | fuel + 1, s, pos =>
    match matchAt r s with
    | some (len, g) =>
      if len = 0 then
        match s with
        | [] => []
        | _ :: rest => finditerAux r fuel rest (pos + 1)
      else (pos, s.take len, g) :: finditerAux r fuel (s.drop len) (pos + len)
    | none =>
      match s with
      | [] => []
      | _ :: rest => finditerAux r fuel rest (pos + 1)

/-- All matches of a pattern in a text, in source order. -/
def finditer (r : RE) (s : List Char) : List MatchData :=
  finditerAux r (s.length + 1) s 0

/-- A literal word, concatenation of its characters. -/
def lit (w : String) : RE := (w.toList.map RE.chr).foldr RE.seq RE.eps

/-- Class of the regex character set with letters, underscore and dollar. -/
def identStart (c : Char) : Bool := c.isAlpha || c = '_' || c = '$'

/-- Class of the regex character set with letters, digits, underscore and
dollar. -/
def identChar (c : Char) : Bool := c.isAlpha || c.isDigit || c = '_' || c = '$'

/-- Class of the regex character range of capital letters. -/
def upperStart (c : Char) : Bool := c.isUpper

/-- Class of the regex character set with letters, digits and underscore. -/
def wordChar (c : Char) : Bool := c.isAlpha || c.isDigit || c = '_'

/-- Class of every character except a closing parenthesis. -/
def notRParen (c : Char) : Bool := c ≠ ')'

/-- Class used for the regex whitespace escape. -/
def wsP (c : Char) : Bool := pyIsSpace c

/-- Regex identifier: an ident-start character then ident characters. -/
def identRE : RE := .seq (.cls identStart) (.star identChar)

/-- Regex capitalized identifier: a capital then word characters. -/
def uidentRE : RE := .seq (.cls upperStart) (.star wordChar)

/-- Regex parenthesized argument list: open paren, non-paren characters,
close paren. -/
def parenRE : RE := .seq (.chr '(') (.seq (.star notRParen) (.chr ')'))

/-- Regex whitespace, zero or more. -/
def ws0 : RE := .star wsP

/-- Regex whitespace, one or more. -/
def ws1 : RE := .seq (.cls wsP) (.star wsP)

/-- Function pattern 1 of extract_js_functions: a regular function
declaration, with the whole head as group 1 and the name as group 2. -/
def jsPat1 : RE :=
  .grp 1 (.seq (lit ("function")) (.seq ws1 (.seq (.grp 2 identRE)
    (.seq ws0 (.seq (.chr '(') (.seq (.star notRParen) (.seq (.chr ')')
      (.seq ws0 (.chr openB)))))))))

/-- Function pattern 2: arrow function assigned to a const, let or var
binding; the keyword is group 3, the name group 4, the parameter part
group 5. -/
def jsPat2 : RE :=
  .seq (.grp 3 (.alt (lit ("const")) (.alt (lit ("let")) (lit ("var")))))
    (.seq ws1 (.seq (.grp 4 identRE) (.seq ws0 (.seq (.chr '=')
      (.seq ws0 (.seq (.grp 5 (.alt parenRE identRE))
        (.seq ws0 (.seq (lit ("=>")) (.seq ws0 (.chr openB))))))))))

/-- Function pattern 3: a bare method head, whole head group 6, name
group 7. -/
def jsPat3 : RE :=
  .grp 6 (.seq (.grp 7 identRE) (.seq ws0 (.seq (.chr '(')
    (.seq (.star notRParen) (.seq (.chr ')') (.seq ws0 (.chr openB)))))))

/-- Function pattern 4: object-literal method shorthand, whole head group 8,
name group 9. -/
def jsPat4 : RE :=
  .grp 8 (.seq (.grp 9 identRE) (.seq ws0 (.seq (.chr ':') (.seq ws0
    (.seq (lit ("function")) (.seq ws0 (.seq (.chr '(')
      (.seq (.star notRParen) (.seq (.chr ')') (.seq ws0 (.chr openB)))))))))))

/-- The combined function alternation, joined in source order. -/
def jsCombined : RE := .alt jsPat1 (.alt jsPat2 (.alt jsPat3 jsPat4))

/-- Component pattern 1 of extract_jsx_components: functional component with
the function keyword; the capitalized name is group 1. -/
def jsxPat1 : RE :=
  .seq (lit ("function")) (.seq ws1 (.seq (.grp 1 uidentRE) (.seq ws0
    (.seq (.chr '(') (.seq (.star notRParen) (.seq (.chr ')')
      (.seq ws0 (.chr openB))))))))

/-- Component pattern 2: arrow function component bound by const, let or var;
keyword group 2, name group 3, parameter part group 4. -/
def jsxPat2 : RE :=
  .seq (.grp 2 (.alt (lit ("const")) (.alt (lit ("let")) (lit ("var")))))
    (.seq ws1 (.seq (.grp 3 uidentRE) (.seq ws0 (.seq (.chr '=')
      (.seq ws0 (.seq (.grp 4 (.alt parenRE identRE))
        (.seq ws0 (.seq (lit ("=>")) (.seq ws0 (.chr openB))))))))))

/-- Component pattern 3: class component extending the React base class; the
name is group 5.  Note that this pattern contains no opening brace. -/
def jsxPat3 : RE :=
  .seq (lit ("class")) (.seq ws1 (.seq (.grp 5 uidentRE) (.seq ws1
    (.seq (lit ("extends")) (.seq ws1 (lit ("React.Component")))))))

/-- The combined component alternation, joined in source order. -/
def jsxCombined : RE := .alt jsxPat1 (.alt jsxPat2 jsxPat3)

/-- Python `match.group(n)`: `none` when the group did not participate. -/
def grp? (g : Groups) (n : Nat) : Option (List Char) :=
  (g.find? (fun p => p.1 == n)).map (fun p => p.2)

/-- A chunk dictionary produced by code_parser.py.  The name is an `Option`
because Python stores `None` for a group that did not participate;
`repo_name` is absent until process_file stamps it. -/
structure Chunk where
  chunk_id : String
  file_path : String
  chunk_type : String
  name : Option String
  description : String
  code : String
  start_line : Nat
  end_line : Nat
  repo_name : Option String := none
deriving DecidableEq, Inhabited

/-- Loop of extract_comment_above_function over the reversed lines, with the
accumulated comment_lines; the Python insertion at index zero is a cons onto
the accumulator. -/
def commentLoop : List (List Char) → List (List Char) → List (List Char)
  | [], acc => acc
  | line :: rest, acc =>
    let l := pyStrip line
    if l.isEmpty || pyStrIsSpace l then commentLoop rest acc
    else if ("//").toList.isPrefixOf l then commentLoop rest (pyStrip (l.drop 2) :: acc)
    else if ("*").toList.isPrefixOf l && !(("*/").toList.isPrefixOf l) then
      commentLoop rest (pyStrip (l.drop 1) :: acc)
    else if ("/*").toList.isPrefixOf l then pyStrip (l.drop 2) :: acc
    else acc

/-- code_parser.extract_comment_above_function: comments directly above a
function start offset, joined by single spaces. -/
def extract_comment_above_function (code : List Char) (function_start_idx : Nat) :
    List Char :=
  List.intercalate ([' ']) (commentLoop ((splitNl (code.take function_start_idx)).reverse) [])

/-- os.path.basename for POSIX-style path strings. -/
def basename (p : String) : String := ((splitCh '/' p.toList).getLastD []).asString

/-- pathlib suffix of the final path component: from the last dot, when that
dot is neither the first nor the last character of the component name. -/
def pathSuffix (p : String) : String :=
  let name := (basename p).toList
  match (name.enum.filter (fun q => q.2 == '.')).getLast? with
  | none => ("")
  | some q => if 0 < q.1 ∧ q.1 < name.length - 1 then (name.drop q.1).asString else ("")

/-- Python str.lower restricted to ASCII. -/
def lowerStr (s : String) : String := (s.toList.map Char.toLower).asString

/-- The brace-matching loop of both extractors: walk the characters with a
signed depth counter; when a closing brace brings the counter to exactly
zero, return the offset one past it; at end of text report failure.  The
offset argument is the absolute position of the head character. -/
def scanBraces : List Char → Int → Nat → Option Nat
  | [], _, _ => none
  | c :: rest, count, idx =>
    if c = openB then scanBraces rest (count + 1) (idx + 1)
    else if c = closeB then
      if count - 1 = 0 then some (idx + 1) else scanBraces rest (count - 1) (idx + 1)
    else scanBraces rest count (idx + 1)

/-- Brace matching of extract_js_functions: scan from the match start with
counter zero; `end_idx` stays at the start offset when no close is found. -/
def jsEndIdx (cs : List Char) (start : Nat) : Nat :=
  (scanBraces (cs.drop start) 0 start).getD start

/-- The combined function alternation has nine capture groups, so the length
of `match.groups()` is always nine. -/
def jsGroupCount : Nat := 9

/-- Name extraction of extract_js_functions, mirroring the group-2 lookups of
every branch (the group count test compares against the constant nine). -/
def jsFunctionName (g0 : List Char) (g : Groups) : Option String :=
  if containsSub (("function").toList) g0 then
    if jsGroupCount > 1 then (grp? g 2).map List.asString else some ("anonymous_function")
  else if containsSub (("const").toList) g0 || containsSub (("let").toList) g0 ||
      containsSub (("var").toList) g0 then
    (grp? g 2).map List.asString
  else
    if jsGroupCount > 1 then (grp? g 2).map List.asString else some ("anonymous_method")

/-- Count of newline characters, used for the 1-based line numbers. -/
def nlCount (l : List Char) : Nat := l.count '\n'

/-- Loop body of extract_js_functions for one enumerated match: skip the
candidate when the brace scan fails, otherwise build the chunk dictionary. -/
def jsChunkOfMatch (cs : List Char) (fp : String) : Nat × MatchData → Option Chunk
  | (i, start, matched, g) =>
    let function_name := jsFunctionName matched g
    let end_idx := jsEndIdx cs start
    if end_idx ≤ start then none
    else some {
      chunk_id := basename fp ++ ("_") ++ pyIntStr i
      file_path := fp
      chunk_type := ("function")
      name := function_name
      description := (extract_comment_above_function cs start).asString
      code := (pyStrip ((cs.take end_idx).drop start)).asString
      start_line := nlCount (cs.take start) + 1
      end_line := nlCount (cs.take end_idx) + 1 }

/-- code_parser.extract_js_functions. -/
def extract_js_functions (code : String) (file_path : String) : List Chunk :=
  let cs := code.toList
  (finditer jsCombined cs).enum.filterMap (jsChunkOfMatch cs file_path)

/-- Name extraction of extract_jsx_components, mirroring the group lookups of
each branch. -/
def jsxComponentName (i : Nat) (g0 : List Char) (g : Groups) : Option String :=
  if containsSub (("function").toList) g0 then (grp? g 1).map List.asString
  else if containsSub (("const").toList) g0 || containsSub (("let").toList) g0 ||
      containsSub (("var").toList) g0 then (grp? g 2).map List.asString
  else if containsSub (("class").toList) g0 then (grp? g 1).map List.asString
  else some (("Component_") ++ pyIntStr i)

/-- First inner loop of extract_jsx_components: the absolute offset of the
first opening brace at or after the match start, if any. -/
def findOpen : List Char → Nat → Option Nat
  | [], _ => none
  | c :: rest, idx => if c = openB then some idx else findOpen rest (idx + 1)

/-- The chunk dictionary built by extract_jsx_components. -/
def jsxChunk (cs : List Char) (fp : String) (i start end_idx : Nat)
    (nameV : Option String) : Chunk := {
  chunk_id := basename fp ++ ("_") ++ pyIntStr i
  file_path := fp
  chunk_type := ("component")
  name := nameV
  description := (extract_comment_above_function cs start).asString
  code := (pyStrip ((cs.take end_idx).drop start)).asString
  start_line := nlCount (cs.take start) + 1
  end_line := nlCount (cs.take end_idx) + 1 }

/-- Loop of extract_jsx_components over the enumerated matches.  The Python
local start_search_idx persists between iterations and is assigned only when
the first inner loop finds an opening brace; it is the `Option Nat` state.
When the brace search of the first iteration fails the second loop header
reads the variable unassigned and Python raises UnboundLocalError, modelled
by the error result.  When the search fails on a later iteration, the stale
offset of a previous iteration is reused with the depth counter left at
zero — exactly what the source does. -/
def jsxLoop (cs : List Char) (fp : String) :
    List (Nat × MatchData) → Option Nat → Except String (List Chunk)
  | [], _ => .ok []
  | (i, start, matched, g) :: rest, ssi =>
    let nameV := jsxComponentName i matched g
    match findOpen (cs.drop start) start with
    | some bidx =>
      let ssi2 := bidx + 1
      let end_idx := (scanBraces (cs.drop ssi2) 1 ssi2).getD start
      if end_idx ≤ start then jsxLoop cs fp rest (some ssi2)
      else (jsxLoop cs fp rest (some ssi2)).map
        (fun tail => jsxChunk cs fp i start end_idx nameV :: tail)
    | none =>
      match ssi with
      | none => .error ("UnboundLocalError")
      | some stale =>
        let end_idx := (scanBraces (cs.drop stale) 0 stale).getD start
        if end_idx ≤ start then jsxLoop cs fp rest (some stale)
        else (jsxLoop cs fp rest (some stale)).map
          (fun tail => jsxChunk cs fp i start end_idx nameV :: tail)

/-- code_parser.extract_jsx_components. -/
def extract_jsx_components (code : String) (file_path : String) :
    Except String (List Chunk) :=
  let cs := code.toList
  jsxLoop cs file_path (finditer jsxCombined cs).enum none

/-- The whole-file chunk built by both fallback branches of process_file. -/
def wholeFileChunk (code : String) (file_path : String) (repo_name : String) : Chunk := {
  chunk_id := basename file_path
  file_path := file_path
  chunk_type := ("file")
  name := some (basename file_path)
  description := ("")
  code := code
  start_line := 1
  end_line := nlCount code.toList + 1
  repo_name := some repo_name }

/-- The matcher dispatch of process_file: function matcher for a js suffix,
component matcher followed by the function matcher for a jsx suffix, nothing
otherwise. -/
def dispatchChunks (code : String) (file_path : String) : Except String (List Chunk) :=
  let sfx := lowerStr (pathSuffix file_path)
  if sfx = (".js") then .ok (extract_js_functions code file_path)
  else if sfx = (".jsx") then
    (extract_jsx_components code file_path).map
      (fun comp => comp ++ extract_js_functions code file_path)
  else .ok []

/-- code_parser.process_file on the already-read file content: below fifteen
lines emit one whole-file chunk; otherwise dispatch by suffix, stamp the
repository name on every chunk, and fall back to one whole-file chunk when no
chunk was produced.  A failed file read is handled by the caller and is not
part of this model. -/
def process_file (code : String) (file_path : String) (repo_name : String) :
    Except String (List Chunk) :=
  if (splitNl code.toList).length < 15 then .ok [wholeFileChunk code file_path repo_name]
  else
    match dispatchChunks code file_path with
    | .error e => .error e
    | .ok cs =>
      let cs := cs.map (fun c => { c with repo_name := some repo_name })
      if cs.isEmpty then .ok [wholeFileChunk code file_path repo_name] else .ok cs

/-- config.MAX_CHUNK_SIZE. -/
def MAX_CHUNK_SIZE : Nat := 8000

/-- config.EMBEDDING_DIMENSIONS. -/
def EMBEDDING_DIMENSIONS : Nat := 384

/-- The text actually submitted to the embedding model by generate_embedding:
truncated to the configured character cap when longer. -/
def submittedText (text : String) : String :=
  if text.length > MAX_CHUNK_SIZE then (text.toList.take MAX_CHUNK_SIZE).asString else text

/-- generate_embeddings.generate_embedding, with the external model as the
function argument: truncate, call the model, and on a model error substitute
a zero vector of the configured dimensionality. -/
def generate_embedding (encode : String → Except String (List Rat)) (text : String) :
    List Rat :=
  match encode (submittedText text) with
  | .ok v => v
  | .error _ => List.replicate EMBEDDING_DIMENSIONS 0

/-- Dot product of two vectors, numpy on two equal-length one-dimensional
arrays. -/
def dotV (q c : List Rat) : Rat := (List.zipWith (fun a b => a * b) q c).sum

/-- Squared Euclidean norm; the numpy norm is its square root. -/
def normSq (v : List Rat) : Rat := dotV v v

/-- Result of the floating-point similarity division, kept symbolic: either
not-a-number, a signed infinity, or the exact value `num` divided by the
square root of `denSq`. -/
inductive SimResult where
  | nan
  | inf (pos : Bool)
  | val (num : Rat) (denSq : Rat)
deriving DecidableEq

/-- IEEE division of `num` by the (nonnegative) square root of `denSq`: with
a zero divisor a zero numerator gives not-a-number and a nonzero numerator a
signed infinity; otherwise the value is kept symbolically. -/
def fdivSqrt (num denSq : Rat) : SimResult :=
  if denSq = 0 then (if num = 0 then .nan else .inf (0 < num)) else .val num denSq

/-- query_code.calculate_similarity: the dot product divided by the product of
the two Euclidean norms, which is the square root of the product of the two
squared norms. -/
def calculate_similarity (query_embedding code_embedding : List Rat) : SimResult :=
  fdivSqrt (dotV query_embedding code_embedding)
    (normSq query_embedding * normSq code_embedding)

/-- One row of the embeddings dataframe in query_code.py.  The embedding and
similarity columns are optional so that a dropped or not-yet-assigned column
is representable. -/
structure DfRow where
  chunk_id : String
  file_path : String
  repo_name : String
  chunk_type : String
  name : String
  description : String
  start_line : Nat
  end_line : Nat
  embedding : Option (List Rat)
  similarity : Option SimResult
deriving DecidableEq

/-- Descending comparison of two similarity scores as the pandas sort orders
them: larger values first, infinities at the respective ends, not-a-number
last.  Two values compare through their signs and then through cross
multiplication of the squared magnitudes. -/
def simBefore : SimResult → SimResult → Bool
  | .nan, .nan => true
  | .nan, _ => false
  | _, .nan => true
  | .inf true, _ => true
  | _, .inf true => false
  | .inf false, .inf false => true
  | .inf false, .val _ _ => false
  | .val _ _, .inf false => true
  | .val a x, .val b y =>
    if 0 ≤ a then (if 0 ≤ b then decide (b * b * x ≤ a * a * y) else true)
    else (if 0 ≤ b then false else decide (a * a * y ≤ b * b * x))

/-- Insert into a sorted list, keeping earlier elements first on ties. -/
def insertBy (le : α → α → Bool) (a : α) : List α → List α
  | [] => [a]
  | b :: l => if le a b then a :: b :: l else b :: insertBy le a l

/-- Insertion sort.  The source defers to the default pandas sort, whose
algorithm (and hence its order among tied scores) is unspecified; the claims
proved below do not depend on the order among ties. -/
def sortBy (le : α → α → Bool) : List α → List α
  | [] => []
  | a :: l => insertBy le a (sortBy le l)

/-- Row order of the pandas sort on the similarity column, descending with
missing scores last. -/
def rowBefore (r s : DfRow) : Bool :=
  simBefore (r.similarity.getD .nan) (s.similarity.getD .nan)

/-- query_code.search_code with the external query-embedding model as a
function argument.  Returns the dataframe as the caller observes it after
the call together with the returned results: the source assigns a similarity
column in place on the caller's dataframe, then sorts a copy, truncates to
`top_n` and drops the embedding column of the copy. -/
def search_code (encodeQ : String → Option (List Rat)) (query : String)
    (embeddings_df : List DfRow) (top_n : Nat := 5) : List DfRow × List DfRow :=
  match encodeQ query with
  | none => (embeddings_df, [])
  | some query_embedding =>
    let stored := embeddings_df.map (fun r =>
      { r with
        similarity := some (calculate_similarity query_embedding (r.embedding.getD [])) })
    let results := ((sortBy rowBefore stored).take top_n).map
      (fun r => { r with embedding := none })
    (stored, results)

/-- Decimal value of a digit character, the inverse of `digitCharP`; used only
to prove that Python decimal rendering is injective. -/
def charValP (c : Char) : Nat :=
  match c with
  | '0' => 0 | '1' => 1 | '2' => 2 | '3' => 3 | '4' => 4
  | '5' => 5 | '6' => 6 | '7' => 7 | '8' => 8 | _ => 9

/-- Numeric value of a digit string, most significant digit first. -/
def decVal (l : List Char) : Nat := l.foldl (fun a c => a * 10 + charValP c) 0

/-- Modelled from the claim for the comment extractor: walking the lines
above the boundary bottom-up, a blank line is skipped, a line-comment marker
contributes its remainder, a block continuation marker (a star that does not
close the block) contributes its remainder, a block opener contributes its
remainder and terminates the walk, and any other non-blank line terminates
without contributing.  The fragments are collected in walk order, bottom-up. -/
def commentFragmentsSpec : List (List Char) → List (List Char)
  | [] => []
  | line :: rest =>
    let l := pyStrip line
    if l = [] then commentFragmentsSpec rest
    else if ("//").toList.isPrefixOf l then pyStrip (l.drop 2) :: commentFragmentsSpec rest
    else if ("*").toList.isPrefixOf l && !(("*/").toList.isPrefixOf l) then
      pyStrip (l.drop 1) :: commentFragmentsSpec rest
    else if ("/*").toList.isPrefixOf l then [pyStrip (l.drop 2)]
    else []

/-- Modelled from the claim: the space-joined fragments of the comment block
immediately above the boundary, in original top-to-bottom order. -/
def commentSpec (code : List Char) (idx : Nat) : List Char :=
  List.intercalate ([' '])
    ((commentFragmentsSpec ((splitNl (code.take idx)).reverse)).reverse)

/-- Depth check for properly nested braces: the running depth never drops
below zero and ends at zero. -/
def nestedAux : List Char → Int → Bool
  | [], d => d == 0
  | c :: rest, d =>
    if c = openB then nestedAux rest (d + 1)
    else if c = closeB then (if d - 1 < 0 then false else nestedAux rest (d - 1))
    else nestedAux rest d

/-- A text has well-balanced braces when its braces are properly nested. -/
def bracesNested (s : String) : Bool := nestedAux s.data 0

/-- Running check of the claim condition that no prefix extending past the
first opening brace has more closing than opening braces. -/
def noNegAfterOpen : List Char → Int → Bool → Bool
  | [], _, _ => true
  | c :: rest, depth, seenOpen =>
    let d := if c = openB then depth + 1 else if c = closeB then depth - 1 else depth
    let seen := seenOpen || (c = openB)
    if seen && d < 0 then false else noNegAfterOpen rest d seen

/-- Modelled from the claim: a chunk body is brace-balanced when its opening
and closing brace counts agree and no prefix going past the first opening
brace turns the running count negative. -/
def braceBalancedStr (s : String) : Bool :=
  (s.data.count openB == s.data.count closeB) && noNegAfterOpen s.data 0 false

/-- A one-row corpus used to exhibit the in-place mutation of the stored
dataframe by a query. -/
def sampleRow : DfRow :=
  { chunk_id := ("c1"), file_path := ("f"), repo_name := ("r"),
    chunk_type := ("function"), name := ("n"), description := (""),
    start_line := 1, end_line := 2, embedding := some [1], similarity := none }

/-- Decidable equality of results, used to evaluate the embedded functions on
closed inputs. -/
instance {e a : Type} [DecidableEq e] [DecidableEq a] : DecidableEq (Except e a) := fun x y =>
  match x, y with
  | .error u, .error v =>
    if h : u = v then isTrue (by rw [h]) else isFalse (fun hc => h (by injection hc))
  | .ok u, .ok v =>
    if h : u = v then isTrue (by rw [h]) else isFalse (fun hc => h (by injection hc))
  | .error _, .ok _ => isFalse (fun hc => Except.noConfusion hc)
  | .ok _, .error _ => isFalse (fun hc => Except.noConfusion hc)

theorem length_asString (l : List Char) : (l.asString).length = l.length := rfl

theorem dotV_cons (a b : Rat) (l m : List Rat) :
    dotV (a :: l) (b :: m) = a * b + dotV l m := by
  simp [dotV]

theorem normSq_cons (a : Rat) (l : List Rat) : normSq (a :: l) = a * a + normSq l := by
  simp [normSq, dotV]

theorem normSq_nonneg (v : List Rat) : 0 ≤ normSq v := by
  induction v with
  | nil => simp [normSq, dotV]
  | cons a l ih =>
    rw [normSq_cons]
    have := mul_self_nonneg a
    linarith

theorem normSq_eq_zero (v : List Rat) (h : normSq v = 0) : ∀ x ∈ v, x = 0 := by
  induction v with
  | nil => simp
  | cons a l ih =>
    rw [normSq_cons] at h
    have h1 : 0 ≤ a * a := mul_self_nonneg a
    have h2 := normSq_nonneg l
    have ha : a = 0 := by
      have : a * a = 0 := by linarith
      exact mul_self_eq_zero.mp this
    intro x hx
    rcases List.mem_cons.mp hx with hx | hx
    · rw [hx]; exact ha
    · exact ih (by linarith) x hx

theorem dotV_zero_left (q c : List Rat) (h : ∀ x ∈ q, x = 0) : dotV q c = 0 := by
  induction q generalizing c with
  | nil => simp [dotV]
  | cons a l ih =>
    cases c with
    | nil => simp [dotV]
    | cons b m =>
      rw [dotV_cons, h a (by simp), ih m (fun x hx => h x (List.mem_cons_of_mem _ hx))]
      ring

theorem dotV_zero_right (q c : List Rat) (h : ∀ x ∈ c, x = 0) : dotV q c = 0 := by
  induction q generalizing c with
  | nil => simp [dotV]
  | cons a l ih =>
    cases c with
    | nil => simp [dotV]
    | cons b m =>
      rw [dotV_cons, h b (by simp), ih m (fun x hx => h x (List.mem_cons_of_mem _ hx))]
      ring

/-- C5 (amended): the division of calculate_similarity is not guarded; when
the query vector or a record vector has zero magnitude the score is the IEEE
result of dividing zero by zero, that is not-a-number — not a substituted
sentinel value. -/
theorem calculate_similarity_zero_magnitude (q c : List Rat)
    (h : normSq q = 0 ∨ normSq c = 0) :
    calculate_similarity q c = SimResult.nan := by
  have hd : dotV q c = 0 := by
    rcases h with h | h
    · exact dotV_zero_left q c (normSq_eq_zero q h)
    · exact dotV_zero_right q c (normSq_eq_zero c h)
  have hz : normSq q * normSq c = 0 := by
    rcases h with h | h <;> rw [h] <;> ring
  simp [calculate_similarity, fdivSqrt, hz, hd]

/-- Witness for the amended C5 theorem at a concrete zero-magnitude query. -/
theorem calculate_similarity_zero_magnitude_witness :
    (normSq [(0 : Rat)] = 0 ∨ normSq [(1 : Rat)] = 0) ∧
    calculate_similarity [(0 : Rat)] [(1 : Rat)] = SimResult.nan :=
  ⟨Or.inl (by norm_num [normSq, dotV]),
   calculate_similarity_zero_magnitude _ _ (Or.inl (by norm_num [normSq, dotV]))⟩

/-- C5 counterexample: on a concrete zero-magnitude query vector the
similarity computation produces not-a-number; the claim that the
implementation guards the division and yields a sentinel score instead of a
NaN is false on the code. -/
theorem calculate_similarity_unguarded_nan :
    calculate_similarity [(0 : Rat), 0] [(1 : Rat), 1] = SimResult.nan := by
  norm_num [calculate_similarity, fdivSqrt, dotV, normSq]

/-- C9: when the external model raises, generate_embedding substitutes a zero
vector of the configured dimensionality (384), and the text submitted to the
model is the input truncated to the configured character cap (8000). -/
theorem generate_embedding_zero_on_error :
    ∀ (encode : String → Except String (List Rat)) (text : String) (e : String),
      encode (submittedText text) = .error e →
      generate_embedding encode text = List.replicate EMBEDDING_DIMENSIONS 0 ∧
      (generate_embedding encode text).length = EMBEDDING_DIMENSIONS ∧
      (submittedText text).length = min text.length MAX_CHUNK_SIZE := by
  intro encode text e h
  have h1 : generate_embedding encode text = List.replicate EMBEDDING_DIMENSIONS 0 := by
    unfold generate_embedding
    rw [h]
  refine ⟨h1, by rw [h1]; simp, ?_⟩
  unfold submittedText
  split
  · next hgt =>
    rw [length_asString, List.length_take]
    have : text.toList.length = text.length := rfl
    omega
  · next hle => omega

/-- Witness for the C9 theorem at a concrete failing model. -/
theorem generate_embedding_zero_on_error_witness :
    generate_embedding (fun _ => .error ("boom")) ("abc") =
      List.replicate EMBEDDING_DIMENSIONS 0 ∧
    (generate_embedding (fun _ => .error ("boom")) ("abc")).length = EMBEDDING_DIMENSIONS ∧
    (submittedText ("abc")).length = min ("abc" : String).length MAX_CHUNK_SIZE :=
  generate_embedding_zero_on_error _ _ ("boom") rfl

/-- C10 (amended): search_code assigns the similarity column in place on the
caller's dataframe, so the stored records are mutated by a query; apart from
that column every field of every stored record, the embedding included, and
the record count are left unchanged. -/
theorem search_code_preserves_records :
    ∀ (encodeQ : String → Option (List Rat)) (query : String)
      (embeddings_df : List DfRow) (top_n : Nat),
      ((search_code encodeQ query embeddings_df top_n).1).map
          (fun r => { r with similarity := none }) =
        embeddings_df.map (fun r => { r with similarity := none }) ∧
      ((search_code encodeQ query embeddings_df top_n).1).length =
        embeddings_df.length := by
  intro encodeQ query df top_n
  cases h : encodeQ query with
  | none => simp [search_code, h]
  | some qe =>
    simp only [search_code, h, List.map_map, List.length_map]
    constructor
    · apply List.map_congr_left
      intro r _
      cases r
      rfl
    · simp

/-- C10 counterexample: a concrete one-row corpus is not equal, as stored,
to itself after a query — search_code has added a similarity value to the
stored record, so the claim that a query leaves the stored records unchanged
is false on the code. -/
theorem search_code_mutates_store :
    (search_code (fun _ => some [(1 : Rat)]) ("q") [sampleRow] 5).1 ≠ [sampleRow] := by
  intro hEq
  have h2 := congrArg (fun l => (l.headD sampleRow).similarity) hEq
  simp [search_code, sampleRow] at h2

/-- C6: a text below fifteen lines yields exactly one whole-file chunk of
kind file, named by the base name, with the bare base name as chunk id, the
entire content as body and lines one through newline count plus one (no
pattern matching is attempted); and whenever the dispatched matchers produce
zero chunks the same single whole-file chunk is emitted. -/
theorem process_file_whole_file_fallback :
    (∀ (code file_path repo_name : String),
      (splitNl code.toList).length < 15 →
      process_file code file_path repo_name = .ok [{
        chunk_id := basename file_path, file_path := file_path,
        chunk_type := ("file"), name := some (basename file_path),
        description := (""), code := code, start_line := 1,
        end_line := nlCount code.toList + 1, repo_name := some repo_name }]) ∧
    (∀ (code file_path repo_name : String),
      dispatchChunks code file_path = .ok [] →
      process_file code file_path repo_name = .ok [{
        chunk_id := basename file_path, file_path := file_path,
        chunk_type := ("file"), name := some (basename file_path),
        description := (""), code := code, start_line := 1,
        end_line := nlCount code.toList + 1, repo_name := some repo_name }]) := by
  constructor
  · intro code fp repo h
    unfold process_file
    rw [if_pos h]
    rfl
  · intro code fp repo h
    unfold process_file
    split
    · rfl
    · rw [h]
      rfl

/-- Witness for the C6 theorem: a one-line file, and a fifteen-line file with
no recognized declaration. -/
theorem process_file_whole_file_fallback_witness :
    process_file ("x") ("f.js") ("r") = .ok [{
      chunk_id := basename ("f.js"), file_path := ("f.js"),
      chunk_type := ("file"), name := some (basename ("f.js")),
      description := (""), code := ("x"), start_line := 1,
      end_line := nlCount ("x" : String).toList + 1, repo_name := some ("r") }] ∧
    process_file ("\n\n\n\n\n\n\n\n\n\n\n\n\n\n") ("g.js") ("r") = .ok [{
      chunk_id := basename ("g.js"), file_path := ("g.js"),
      chunk_type := ("file"), name := some (basename ("g.js")),
      description := (""), code := ("\n\n\n\n\n\n\n\n\n\n\n\n\n\n"), start_line := 1,
      end_line := nlCount ("\n\n\n\n\n\n\n\n\n\n\n\n\n\n" : String).toList + 1,
      repo_name := some ("r") }] :=
  ⟨process_file_whole_file_fallback.1 ("x") ("f.js") ("r") (by decide),
   process_file_whole_file_fallback.2 ("\n\n\n\n\n\n\n\n\n\n\n\n\n\n") ("g.js") ("r")
     (by decide)⟩

/-- C2: the claim that a failed brace scan is always skipped silently is
broken by the component matcher — on a first match with no opening brace at
or after the match start (the class-component pattern contains no brace) the
second scanning loop reads the never-assigned search offset and Python
raises UnboundLocalError instead of skipping. -/
theorem jsx_first_match_without_brace_raises :
    extract_jsx_components ("class Foo extends React.Component") ("f.jsx") =
      .error ("UnboundLocalError") := by decide

/-- C3: the name field does not equal the captured identifier: because the
group lookups ignore the group renumbering of the combined alternation, an
arrow function bound by const gets the name None from the function matcher
and the keyword itself from the component matcher. -/
theorem js_jsx_names_not_captured :
    (extract_js_functions ("const foo = () => \x7b return 1; \x7d") ("a.js")).map
        (fun c => c.name) = [none] ∧
    (extract_jsx_components ("const Foo = () => \x7b return 1; \x7d") ("b.jsx")).map
        (fun l => l.map (fun c => c.name)) = .ok [some ("const")] :=
  ⟨by decide, by decide⟩

theorem pyStrip_all_space_false (x : List Char) (h : pyStrip x ≠ []) :
    (pyStrip x).all pyIsSpace = false := by
  have hm0 : (x.dropWhile pyIsSpace).reverse.dropWhile pyIsSpace ≠ [] := by
    intro hnil
    apply h
    unfold pyStrip
    rw [hnil]
    rfl
  have hhead := List.head_dropWhile_not pyIsSpace ((x.dropWhile pyIsSpace).reverse) hm0
  unfold pyStrip
  cases hall : ((x.dropWhile pyIsSpace).reverse.dropWhile pyIsSpace).reverse.all pyIsSpace with
  | false => rfl
  | true =>
    have hmem : ((x.dropWhile pyIsSpace).reverse.dropWhile pyIsSpace).head hm0 ∈
        ((x.dropWhile pyIsSpace).reverse.dropWhile pyIsSpace).reverse :=
      List.mem_reverse.mpr (List.head_mem hm0)
    exact absurd (List.all_eq_true.mp hall _ hmem) (by simp [hhead])

theorem pyStrip_blank_cond (x : List Char) :
    ((pyStrip x).isEmpty || pyStrIsSpace (pyStrip x)) = true ↔ pyStrip x = [] := by
  constructor
  · intro h
    cases hE : pyStrip x with
    | nil => rfl
    | cons a l =>
      exfalso
      have hne : pyStrip x ≠ [] := by rw [hE]; simp
      have hfalse := pyStrip_all_space_false x hne
      rw [Bool.or_eq_true] at h
      rcases h with h | h
      · rw [hE] at h
        simp [List.isEmpty] at h
      · simp [pyStrIsSpace, hfalse] at h
  · intro h
    rw [h]
    rfl

theorem commentLoop_eq_spec (ls : List (List Char)) :
    ∀ acc, commentLoop ls acc = (commentFragmentsSpec ls).reverse ++ acc := by
  induction ls with
  | nil => intro acc; simp [commentLoop, commentFragmentsSpec]
  | cons line rest ih =>
    intro acc
    by_cases h1 : pyStrip line = []
    · have hsrc : ((pyStrip line).isEmpty || pyStrIsSpace (pyStrip line)) = true :=
        (pyStrip_blank_cond line).mpr h1
      simp only [commentLoop, commentFragmentsSpec, hsrc, h1, if_true, if_pos]
      exact ih acc
    · have hsrc : ((pyStrip line).isEmpty || pyStrIsSpace (pyStrip line)) = false := by
        cases hc : ((pyStrip line).isEmpty || pyStrIsSpace (pyStrip line)) with
        | false => rfl
        | true => exact absurd ((pyStrip_blank_cond line).mp hc) h1
      simp only [commentLoop, commentFragmentsSpec, hsrc, h1, Bool.false_eq_true, if_false]
      by_cases h2 : ("//").toList.isPrefixOf (pyStrip line)
      · simp only [h2, if_true, List.reverse_cons, ih]
        simp
      · simp only [h2, Bool.false_eq_true, if_false]
        by_cases h3 : (("*").toList.isPrefixOf (pyStrip line) &&
            !(("*/").toList.isPrefixOf (pyStrip line))) = true
        · simp only [h3, if_true, List.reverse_cons, ih]
          simp
        · simp only [h3, Bool.false_eq_true, if_false]
          by_cases h4 : ("/*").toList.isPrefixOf (pyStrip line)
          · simp only [h4, if_true]
            simp
          · simp only [h4, Bool.false_eq_true, if_false]
            simp

/-- C8: extract_comment_above_function returns exactly the space-joined
fragments of the comment block above the boundary described by the claim:
blank lines are skipped, a line-comment marker contributes its remainder, a
block continuation star (not a block close) contributes its remainder, a
block opener contributes its remainder and stops the walk, any other
non-blank line stops the walk without contributing, fragments appear in
top-to-bottom order and the result is empty when nothing qualifies. -/
theorem extract_comment_matches_spec :
    ∀ (code : List Char) (idx : Nat),
      extract_comment_above_function code idx = commentSpec code idx := by
  intro code idx
  unfold extract_comment_above_function commentSpec
  rw [commentLoop_eq_spec]
  simp

/-- C1 counterexample: a component-capable file whose text is matched by both
matchers produces two chunks with the same chunk id, so the claim that the
chunk ids of one file's extraction are pairwise distinct is false on the
code. -/
theorem process_file_duplicate_chunk_ids :
    (process_file ("const Foo = () => \x7b\n\x7d\n\n\n\n\n\n\n\n\n\n\n\n\n") ("f.jsx")
        ("repo")).map (fun l => l.map (fun c => c.chunk_id)) =
      .ok [("f.jsx_0"), ("f.jsx_0")] ∧
    ¬ ([("f.jsx_0"), ("f.jsx_0")] : List String).Pairwise (· ≠ ·) :=
  ⟨by decide, by decide⟩

/-- C7 counterexample: on concrete well-balanced sources, the function
matcher emits a chunk whose body has a prefix going negative after its first
opening brace, and the component matcher emits a chunk whose body has
unequal brace counts; the claim that every emitted body is brace-balanced is
false on the code. -/
theorem chunk_body_brace_imbalance :
    bracesNested ("\x7b\x7ba(\x7d)\x7b\x7d\x7d\x7b\x7b\x7b\x7d\x7d\x7d") = true ∧
    (extract_js_functions ("\x7b\x7ba(\x7d)\x7b\x7d\x7d\x7b\x7b\x7b\x7d\x7d\x7d")
        ("f.js")).map (fun c => braceBalancedStr c.code) = [false] ∧
    bracesNested ("\x7b\x7bfunction Foo(a\x7d) \x7b\x7d\x7d") = true ∧
    (extract_jsx_components ("\x7b\x7bfunction Foo(a\x7d) \x7b\x7d\x7d") ("f.jsx")).map
        (fun l => l.map (fun c => braceBalancedStr c.code)) = .ok [false] :=
  ⟨by decide, by decide, by decide, by decide⟩

theorem charValP_digitCharP {d : Nat} (h : d < 10) : charValP (digitCharP d) = d := by
  interval_cases d <;> rfl

theorem decVal_append (l : List Char) (c : Char) :
    decVal (l ++ [c]) = decVal l * 10 + charValP c := by
  unfold decVal
  rw [List.foldl_append]
  rfl

theorem decVal_decAux : ∀ (fuel n : Nat), n ≤ fuel → decVal (decAux fuel n) = n := by
  intro fuel
  induction fuel with
  | zero =>
    intro n h
    have h0 : n = 0 := by omega
    subst h0
    rfl
  | succ fuel ih =>
    intro n h
    by_cases h0 : n = 0
    · subst h0
      rfl
    · have hdiv : n / 10 < n := Nat.div_lt_self (Nat.pos_of_ne_zero h0) (by omega)
      unfold decAux
      rw [if_neg h0, decVal_append, ih (n / 10) (by omega),
        charValP_digitCharP (Nat.mod_lt n (by omega))]
      omega

theorem decVal_pyIntStrL (n : Nat) : decVal (pyIntStrL n) = n := by
  unfold pyIntStrL
  split
  · next h => subst h; rfl
  · next h => exact decVal_decAux (n + 1) n (by omega)

theorem chunkId_inj (fp : String) {i j : Nat}
    (h : basename fp ++ ("_") ++ pyIntStr i = basename fp ++ ("_") ++ pyIntStr j) :
    i = j := by
  have hd := congrArg String.data h
  simp only [String.data_append] at hd
  have h2 : (pyIntStr i).data = (pyIntStr j).data := List.append_cancel_left hd
  have h3 : pyIntStrL i = pyIntStrL j := h2
  calc i = decVal (pyIntStrL i) := (decVal_pyIntStrL i).symm
    _ = decVal (pyIntStrL j) := by rw [h3]
    _ = j := decVal_pyIntStrL j

theorem jsChunkOfMatch_id (cs : List Char) (fp : String) (i : Nat) (m : MatchData)
    (c : Chunk) (h : jsChunkOfMatch cs fp (i, m) = some c) :
    c.chunk_id = basename fp ++ ("_") ++ pyIntStr i := by
  obtain ⟨start, matched, g⟩ := m
  simp only [jsChunkOfMatch] at h
  split at h
  · exact absurd h (by simp)
  · injection h with hc
    subst hc
    rfl

theorem mem_filterMap_enumFrom {α : Type} (f : Nat × α → Option Chunk) :
    ∀ (l : List α) (s : Nat) (c : Chunk), c ∈ (List.enumFrom s l).filterMap f →
      ∃ i, s ≤ i ∧ ∃ a, f (i, a) = some c := by
  intro l
  induction l with
  | nil =>
    intro s c h
    simp [List.enumFrom] at h
  | cons x xs ih =>
    intro s c h
    rw [List.enumFrom_cons] at h
    cases hfx : f (s, x) with
    | none =>
      rw [List.filterMap_cons, hfx] at h
      obtain ⟨i, hi, a, ha⟩ := ih (s + 1) c h
      exact ⟨i, by omega, a, ha⟩
    | some b =>
      rw [List.filterMap_cons, hfx] at h
      rcases List.mem_cons.mp h with h | h
      · exact ⟨s, Nat.le_refl s, x, by rw [hfx, h]⟩
      · obtain ⟨i, hi, a, ha⟩ := ih (s + 1) c h
        exact ⟨i, by omega, a, ha⟩

theorem filterMap_enumFrom_pairwise {α : Type} (f : Nat × α → Option Chunk)
    (key : Nat → String) (hkey : ∀ i j, key i = key j → i = j)
    (hid : ∀ i a c, f (i, a) = some c → c.chunk_id = key i) :
    ∀ (l : List α) (s : Nat),
      ((List.enumFrom s l).filterMap f).Pairwise (fun c d => c.chunk_id ≠ d.chunk_id) := by
  intro l
  induction l with
  | nil => intro s; simp [List.enumFrom]
  | cons x xs ih =>
    intro s
    rw [List.enumFrom_cons, List.filterMap_cons]
    cases hfx : f (s, x) with
    | none => exact ih (s + 1)
    | some b =>
      refine List.Pairwise.cons ?_ (ih (s + 1))
      intro d hd
      obtain ⟨i, hi, a, ha⟩ := mem_filterMap_enumFrom f xs (s + 1) d hd
      rw [hid s x b hfx, hid i a d ha]
      intro hEq
      have := hkey _ _ hEq
      omega

theorem jsxLoop_mem {cs : List Char} {fp : String} :
    ∀ (ms : List MatchData) (s : Nat) (ssi : Option Nat) (out : List Chunk) (c : Chunk),
      jsxLoop cs fp (List.enumFrom s ms) ssi = .ok out → c ∈ out →
      ∃ i, s ≤ i ∧ c.chunk_id = basename fp ++ ("_") ++ pyIntStr i := by
  intro ms
  induction ms with
  | nil =>
    intro s ssi out c h hc
    simp only [List.enumFrom, jsxLoop] at h
    injection h with h2
    subst h2
    exact absurd hc (by simp)
  | cons m rest ih =>
    intro s ssi out c h hc
    obtain ⟨start, matched, g⟩ := m
    rw [List.enumFrom_cons] at h
    cases hfo : findOpen (cs.drop start) start with
    | some bidx =>
      simp only [jsxLoop, hfo] at h
      split at h
      · obtain ⟨i, hi, hid⟩ := ih (s + 1) _ out c h hc
        exact ⟨i, by omega, hid⟩
      · cases hrec : jsxLoop cs fp (List.enumFrom (s + 1) rest) (some (bidx + 1)) with
        | error e' =>
          rw [hrec] at h
          simp [Except.map] at h
        | ok tail =>
          rw [hrec] at h
          simp only [Except.map] at h
          injection h with h2
          subst h2
          rcases List.mem_cons.mp hc with hc | hc
          · subst hc
            exact ⟨s, Nat.le_refl s, rfl⟩
          · obtain ⟨i, hi, hid⟩ := ih (s + 1) _ tail c hrec hc
            exact ⟨i, by omega, hid⟩
    | none =>
      cases ssi with
      | none =>
        simp only [jsxLoop, hfo] at h
        exact absurd h (by simp)
      | some stale =>
        simp only [jsxLoop, hfo] at h
        split at h
        · obtain ⟨i, hi, hid⟩ := ih (s + 1) _ out c h hc
          exact ⟨i, by omega, hid⟩
        · cases hrec : jsxLoop cs fp (List.enumFrom (s + 1) rest) (some stale) with
          | error e' =>
            rw [hrec] at h
            simp [Except.map] at h
          | ok tail =>
            rw [hrec] at h
            simp only [Except.map] at h
            injection h with h2
            subst h2
            rcases List.mem_cons.mp hc with hc | hc
            · subst hc
              exact ⟨s, Nat.le_refl s, rfl⟩
            · obtain ⟨i, hi, hid⟩ := ih (s + 1) _ tail c hrec hc
              exact ⟨i, by omega, hid⟩

theorem jsxLoop_pairwise {cs : List Char} {fp : String} :
    ∀ (ms : List MatchData) (s : Nat) (ssi : Option Nat) (out : List Chunk),
      jsxLoop cs fp (List.enumFrom s ms) ssi = .ok out →
      out.Pairwise (fun c d => c.chunk_id ≠ d.chunk_id) := by
  intro ms
  induction ms with
  | nil =>
    intro s ssi out h
    simp only [List.enumFrom, jsxLoop] at h
    injection h with h2
    subst h2
    exact List.Pairwise.nil
  | cons m rest ih =>
    intro s ssi out h
    obtain ⟨start, matched, g⟩ := m
    rw [List.enumFrom_cons] at h
    cases hfo : findOpen (cs.drop start) start with
    | some bidx =>
      simp only [jsxLoop, hfo] at h
      split at h
      · exact ih (s + 1) _ out h
      · cases hrec : jsxLoop cs fp (List.enumFrom (s + 1) rest) (some (bidx + 1)) with
        | error e' =>
          rw [hrec] at h
          simp [Except.map] at h
        | ok tail =>
          rw [hrec] at h
          simp only [Except.map] at h
          injection h with h2
          subst h2
          refine List.Pairwise.cons ?_ (ih (s + 1) _ tail hrec)
          intro d hd
          obtain ⟨i, hi, hid⟩ := jsxLoop_mem rest (s + 1) _ tail d hrec hd
          show (basename fp ++ ("_") ++ pyIntStr s) ≠ d.chunk_id
          rw [hid]
          intro hEq
          have := chunkId_inj fp hEq
          omega
    | none =>
      cases ssi with
      | none =>
        simp only [jsxLoop, hfo] at h
        exact absurd h (by simp)
      | some stale =>
        simp only [jsxLoop, hfo] at h
        split at h
        · exact ih (s + 1) _ out h
        · cases hrec : jsxLoop cs fp (List.enumFrom (s + 1) rest) (some stale) with
          | error e' =>
            rw [hrec] at h
            simp [Except.map] at h
          | ok tail =>
            rw [hrec] at h
            simp only [Except.map] at h
            injection h with h2
            subst h2
            refine List.Pairwise.cons ?_ (ih (s + 1) _ tail hrec)
            intro d hd
            obtain ⟨i, hi, hid⟩ := jsxLoop_mem rest (s + 1) _ tail d hrec hd
            show (basename fp ++ ("_") ++ pyIntStr s) ≠ d.chunk_id
            rw [hid]
            intro hEq
            have := chunkId_inj fp hEq
            omega

/-- C1 (amended): within the output of one matcher invocation the chunk ids
are pairwise distinct — for the function matcher always, and for the
component matcher whenever it returns normally.  For a jsx file process_file
concatenates the two matchers' outputs, and ids may repeat across the two
parts. -/
theorem chunk_ids_distinct_per_matcher :
    (∀ (code file_path : String),
      ((extract_js_functions code file_path).map (fun c => c.chunk_id)).Pairwise
        (· ≠ ·)) ∧
    (∀ (code file_path : String) (out : List Chunk),
      extract_jsx_components code file_path = .ok out →
      (out.map (fun c => c.chunk_id)).Pairwise (· ≠ ·)) := by
  constructor
  · intro code fp
    rw [List.pairwise_map]
    exact filterMap_enumFrom_pairwise (jsChunkOfMatch code.toList fp)
      (fun i => basename fp ++ ("_") ++ pyIntStr i)
      (fun i j h => chunkId_inj fp h)
      (fun i a c h => jsChunkOfMatch_id code.toList fp i a c h)
      (finditer jsCombined code.toList) 0
  · intro code fp out h
    rw [List.pairwise_map]
    exact jsxLoop_pairwise (finditer jsxCombined code.toList) 0 none out h

/-- Witness for the amended C1 theorem at concrete one-chunk extractions. -/
theorem chunk_ids_distinct_per_matcher_witness :
    ((extract_js_functions ("function a() \x7b \x7d") ("w.js")).map
        (fun c => c.chunk_id)).Pairwise (· ≠ ·) ∧
    (((extract_jsx_components ("function Foo() \x7b \x7d") ("w.jsx")).toOption.getD []).map
        (fun c => c.chunk_id)).Pairwise (· ≠ ·) :=
  ⟨chunk_ids_distinct_per_matcher.1 ("function a() \x7b \x7d") ("w.js"),
   chunk_ids_distinct_per_matcher.2 ("function Foo() \x7b \x7d") ("w.jsx") _ (by decide)⟩

theorem scanBraces_some :
    ∀ (l : List Char) (cnt : Int) (idx e : Nat),
      scanBraces l cnt idx = some e →
      idx < e ∧ e - idx ≤ l.length ∧
        ((l.take (e - idx)).count openB : Int) - ((l.take (e - idx)).count closeB : Int)
          = -cnt := by
  intro l
  induction l with
  | nil => intro cnt idx e h; simp [scanBraces] at h
  | cons c rest ih =>
    intro cnt idx e h
    rw [scanBraces] at h
    by_cases hco : c = openB
    · rw [if_pos hco] at h
      obtain ⟨h1, h2, h3⟩ := ih (cnt + 1) (idx + 1) e h
      refine ⟨by omega, by simp only [List.length_cons]; omega, ?_⟩
      have hk : e - idx = (e - (idx + 1)) + 1 := by omega
      rw [hk, List.take_succ_cons]
      subst hco
      rw [List.count_cons_self, List.count_cons_of_ne (by decide : closeB ≠ openB)]
      push_cast
      omega
    · rw [if_neg hco] at h
      by_cases hcc : c = closeB
      · rw [if_pos hcc] at h
        by_cases hz : cnt - 1 = 0
        · rw [if_pos hz] at h
          injection h with he
          subst he
          refine ⟨by omega, by simp only [List.length_cons]; omega, ?_⟩
          have hk : idx + 1 - idx = 1 := by omega
          rw [hk]
          subst hcc
          rw [List.take_succ_cons, List.take_zero, List.count_cons_self,
            List.count_cons_of_ne (by decide : openB ≠ closeB)]
          simp only [List.count_nil]
          omega
        · rw [if_neg hz] at h
          obtain ⟨h1, h2, h3⟩ := ih (cnt - 1) (idx + 1) e h
          refine ⟨by omega, by simp only [List.length_cons]; omega, ?_⟩
          have hk : e - idx = (e - (idx + 1)) + 1 := by omega
          rw [hk, List.take_succ_cons]
          subst hcc
          rw [List.count_cons_self, List.count_cons_of_ne (by decide : openB ≠ closeB)]
          push_cast
          omega
      · rw [if_neg hcc] at h
        obtain ⟨h1, h2, h3⟩ := ih cnt (idx + 1) e h
        refine ⟨by omega, by simp only [List.length_cons]; omega, ?_⟩
        have hk : e - idx = (e - (idx + 1)) + 1 := by omega
        rw [hk, List.take_succ_cons,
          List.count_cons_of_ne (fun hEq => hco hEq.symm),
          List.count_cons_of_ne (fun hEq => hcc hEq.symm)]
        exact h3

theorem count_dropWhile_of_ne {p : Char → Bool} {a : Char} (h : p a = false) :
    ∀ l : List Char, (l.dropWhile p).count a = l.count a := by
  intro l
  induction l with
  | nil => rfl
  | cons b t ih =>
    rw [List.dropWhile_cons]
    by_cases hb : p b = true
    · have hba : a ≠ b := by
        intro hEq
        rw [hEq, hb] at h
        exact Bool.noConfusion h
      rw [if_pos hb, ih, List.count_cons_of_ne hba]
    · rw [if_neg hb]

theorem count_pyStrip (a : Char) (h : pyIsSpace a = false) (l : List Char) :
    (pyStrip l).count a = l.count a := by
  unfold pyStrip
  rw [List.count_reverse, count_dropWhile_of_ne h, List.count_reverse,
    count_dropWhile_of_ne h]

theorem nlCount_take_mono (l : List Char) {m n : Nat} (h : m ≤ n) :
    nlCount (l.take m) ≤ nlCount (l.take n) := by
  unfold nlCount
  have h1 : l.take m = (l.take n).take m := by
    rw [List.take_take, Nat.min_eq_left h]
  rw [h1]
  exact (List.take_sublist m (l.take n)).count_le _

theorem jsChunkOfMatch_props (cs : List Char) (fp : String) (i : Nat) (m : MatchData)
    (c : Chunk) (h : jsChunkOfMatch cs fp (i, m) = some c) :
    c.code.data.count openB = c.code.data.count closeB ∧ c.start_line ≤ c.end_line := by
  obtain ⟨start, matched, g⟩ := m
  simp only [jsChunkOfMatch] at h
  split at h
  · exact absurd h (by simp)
  · next hgt =>
    injection h with hc
    subst hc
    have hlt : start < jsEndIdx cs start := by omega
    cases hscan : scanBraces (cs.drop start) 0 start with
    | none =>
      exfalso
      have : jsEndIdx cs start = start := by
        unfold jsEndIdx
        rw [hscan]
        rfl
      omega
    | some e =>
      have hend : jsEndIdx cs start = e := by
        unfold jsEndIdx
        rw [hscan]
        rfl
      obtain ⟨h1, h2, h3⟩ := scanBraces_some _ _ _ _ hscan
      constructor
      · show (pyStrip ((cs.take (jsEndIdx cs start)).drop start)).count openB =
          (pyStrip ((cs.take (jsEndIdx cs start)).drop start)).count closeB
        rw [count_pyStrip _ (by decide), count_pyStrip _ (by decide), hend,
          List.drop_take]
        omega
      · show nlCount (cs.take start) + 1 ≤ nlCount (cs.take (jsEndIdx cs start)) + 1
        have := nlCount_take_mono cs (Nat.le_of_lt hlt)
        omega

theorem jsxLoop_lines {cs : List Char} {fp : String} :
    ∀ (l : List (Nat × MatchData)) (ssi : Option Nat) (out : List Chunk),
      jsxLoop cs fp l ssi = .ok out → ∀ c ∈ out, c.start_line ≤ c.end_line := by
  intro l
  induction l with
  | nil =>
    intro ssi out h c hc
    simp only [jsxLoop] at h
    injection h with h2
    subst h2
    exact absurd hc (by simp)
  | cons p rest ih =>
    intro ssi out h c hc
    obtain ⟨i, start, matched, g⟩ := p
    cases hfo : findOpen (cs.drop start) start with
    | some bidx =>
      simp only [jsxLoop, hfo] at h
      split at h
      · exact ih _ out h c hc
      · next hgt =>
        cases hrec : jsxLoop cs fp rest (some (bidx + 1)) with
        | error e' =>
          rw [hrec] at h
          simp [Except.map] at h
        | ok tail =>
          rw [hrec] at h
          simp only [Except.map] at h
          injection h with h2
          subst h2
          rcases List.mem_cons.mp hc with hc | hc
          · subst hc
            show nlCount (cs.take start) + 1 ≤ _
            have hlt : start <
                (scanBraces (cs.drop (bidx + 1)) 1 (bidx + 1)).getD start := by omega
            have := nlCount_take_mono cs (Nat.le_of_lt hlt)
            simp only [jsxChunk]
            omega
          · exact ih _ tail hrec c hc
    | none =>
      cases ssi with
      | none =>
        simp only [jsxLoop, hfo] at h
        exact absurd h (by simp)
      | some stale =>
        simp only [jsxLoop, hfo] at h
        split at h
        · exact ih _ out h c hc
        · next hgt =>
          cases hrec : jsxLoop cs fp rest (some stale) with
          | error e' =>
            rw [hrec] at h
            simp [Except.map] at h
          | ok tail =>
            rw [hrec] at h
            simp only [Except.map] at h
            injection h with h2
            subst h2
            rcases List.mem_cons.mp hc with hc | hc
            · subst hc
              show nlCount (cs.take start) + 1 ≤ _
              have hlt : start <
                  (scanBraces (cs.drop stale) 0 stale).getD start := by omega
              have := nlCount_take_mono cs (Nat.le_of_lt hlt)
              simp only [jsxChunk]
              omega
            · exact ih _ tail hrec c hc

/-- C7 (amended): for every source text — well-balanced or not — every chunk
emitted by either matcher satisfies that the start line is at most the end
line, and every chunk emitted by the function matcher has a body with
equally many opening and closing braces.  The stronger balance property of
the claim (no prefix of the body past its first opening brace going
negative, and balance for component-matcher bodies) does not hold. -/
theorem chunk_body_braces_amended :
    (∀ (code file_path : String), ∀ c ∈ extract_js_functions code file_path,
      c.code.data.count openB = c.code.data.count closeB ∧
        c.start_line ≤ c.end_line) ∧
    (∀ (code file_path : String) (out : List Chunk),
      extract_jsx_components code file_path = .ok out →
      ∀ c ∈ out, c.start_line ≤ c.end_line) := by
  constructor
  · intro code fp c hc
    obtain ⟨p, hp, hfp⟩ := List.mem_filterMap.mp hc
    obtain ⟨i, m⟩ := p
    exact jsChunkOfMatch_props code.toList fp i m c hfp
  · intro code fp out h c hc
    exact jsxLoop_lines (finditer jsxCombined code.toList).enum none out h c hc

/-- Witness for the amended C7 theorem at concrete one-chunk extractions. -/
theorem chunk_body_braces_witness :
    (((extract_js_functions ("function a() \x7b \x7d") ("w.js")).head!).code.data.count
        openB =
      ((extract_js_functions ("function a() \x7b \x7d") ("w.js")).head!).code.data.count
        closeB ∧
      ((extract_js_functions ("function a() \x7b \x7d") ("w.js")).head!).start_line ≤
        ((extract_js_functions ("function a() \x7b \x7d") ("w.js")).head!).end_line) ∧
    (((extract_jsx_components ("function Foo() \x7b \x7d")
          ("w.jsx")).toOption.getD []).head!).start_line ≤
      (((extract_jsx_components ("function Foo() \x7b \x7d")
          ("w.jsx")).toOption.getD []).head!).end_line :=
  ⟨chunk_body_braces_amended.1 ("function a() \x7b \x7d") ("w.js") _ (by decide),
   chunk_body_braces_amended.2 ("function Foo() \x7b \x7d") ("w.jsx")
     ((extract_jsx_components ("function Foo() \x7b \x7d") ("w.jsx")).toOption.getD [])
     (by decide) _ (by decide)⟩

end CodeVault
